import Mathlib

/-
Verification development for the labor-leverage repository.

The Go source is shallowly embedded in Lean:
  * Go strings become `List Char` (`Str`); the string helpers used by the
    source (strings.Contains, strings.ToLower, strings.TrimSpace,
    strings.Fields, strings.Join, ...) are reimplemented over `List Char`
    for the ASCII character range exercised by the claims.
  * Go float64 values are modelled as exact rationals (`ℚ`); every numeric
    value appearing in a claim is exactly representable in float64, and the
    code under verification only parses, multiplies by powers of ten and
    compares, so the rational model agrees with the float semantics on all
    inputs the theorems mention.
  * Go `int` is modelled as `ℤ` (with explicit 64-bit range checks where the
    source's strconv.Atoi can fail on overflow).
  * the HTML tree of golang.org/x/net/html is modelled by the mutually
    inductive `HNode`/`HForest`; element identity (Go node pointers) is
    modelled by positions (paths of child indices) where identity matters.
  * calls into encoding/xml (unmarshalling) are exogenous library calls and
    are modelled as parameters giving the decode outcome for a node.
-/

set_option maxRecDepth 10000

namespace LL

/-- Go strings, restricted to the character level. -/
abbrev Str := List Char

/-- Convenience: turn a Lean string literal into the `Str` model. -/
def str (s : String) : Str := s.toList

/-- Whitespace test used by strings.TrimSpace / strings.Fields
(`unicode.IsSpace` restricted to the ASCII range exercised here). -/
def isSpaceChar (c : Char) : Bool :=
  c = ' ' || c = '\t' || c = '\n' || c = '\r' || c = Char.ofNat 11 || c = Char.ofNat 12

/-- strings.ToLower on one ASCII character. -/
def toLowerChar (c : Char) : Char :=
  if 'A' ≤ c && c ≤ 'Z' then Char.ofNat (c.toNat + 32) else c

/-- strings.ToLower. -/
def toLowerStr (s : Str) : Str := s.map toLowerChar

/-- Does `s` start with `pat`? (strings.HasPrefix). -/
def strStarts : Str → Str → Bool
  | _, [] => true
  | [], _ :: _ => false
  | c :: cs, p :: ps => c = p && strStarts cs ps

/-- Does `s` contain `pat` as a contiguous substring? (strings.Contains). -/
def strHas : Str → Str → Bool
  | [], pat => strStarts [] pat
  | s@(_ :: t), pat => strStarts s pat || strHas t pat

/-- strings.TrimSpace. -/
def trimSpace (s : Str) : Str :=
  ((s.dropWhile isSpaceChar).reverse.dropWhile isSpaceChar).reverse

/-- Accumulator loop behind `fields`: `w` is the word read so far. -/
def fieldsGo : Str → Str → List Str
  | w, [] => if w = [] then [] else [w.reverse]
  | w, c :: t =>
    if isSpaceChar c then
      (if w = [] then fieldsGo [] t else w.reverse :: fieldsGo [] t)
    else fieldsGo (c :: w) t

/-- strings.Fields: split around runs of whitespace. -/
def fields (s : Str) : List Str := fieldsGo [] s

/-- strings.Join with a single-space separator. -/
def joinSpace : List Str → Str
  | [] => []
  | [w] => w
  | w :: ws => w ++ ' ' :: joinSpace ws

/-- The whitespace collapse `strings.Join(strings.Fields(s), " ")`
performed by the flattener on inline runs. -/
def collapseWS (s : Str) : Str := joinSpace (fields s)

/-- Digit test ('0'-'9'), as used by unicode.IsDigit / strconv on ASCII input. -/
def isDigitChar (c : Char) : Bool := '0' ≤ c && c ≤ '9'

/-- Numeric value of a digit string (most significant digit first). -/
def natOfDigits (s : Str) : ℕ := s.foldl (fun a c => 10 * a + (c.toNat - 48)) 0

/-- strconv.Atoi: optional sign, one or more digits, 64-bit range; every
other input is an error (`none`). -/
def parseAtoi (s : Str) : Option ℤ :=
  let signedDigits : ℤ × Str :=
    match s with
    | '+' :: t => (1, t)
    | '-' :: t => (-1, t)
    | t => (1, t)
  if signedDigits.2 = [] || !signedDigits.2.all isDigitChar then none
  else
    let v : ℤ := signedDigits.1 * natOfDigits signedDigits.2
    if v < -(2 ^ 63) || v > 2 ^ 63 - 1 then none else some v

/-- strconv.ParseFloat, restricted to plain decimal literals
`[+-]? digits [. digits]` (the only shape the verified call sites can
produce); the parsed value is kept as an exact rational. -/
def parseFloatQ (s : Str) : Option ℚ :=
  let signedRest : ℚ × Str :=
    match s with
    | '+' :: t => (1, t)
    | '-' :: t => (-1, t)
    | t => (1, t)
  let ip := signedRest.2.takeWhile isDigitChar
  match signedRest.2.drop ip.length with
  | [] => if ip = [] then none else some (signedRest.1 * natOfDigits ip)
  | '.' :: frac =>
    if frac.all isDigitChar && (!ip.isEmpty || !frac.isEmpty)
    then some (signedRest.1 * ((natOfDigits ip : ℚ) + (natOfDigits frac : ℚ) / 10 ^ frac.length))
    else none
  | _ => none

/-- Decidable equality on error-or-value results, used by the concrete
theorems about the fallible operations. -/
instance {a b : Type} [DecidableEq a] [DecidableEq b] : DecidableEq (Except a b) := fun x y =>
  match x, y with
  | .ok x1, .ok y1 => decidable_of_iff (x1 = y1) (by simp)
  | .error x1, .error y1 => decidable_of_iff (x1 = y1) (by simp)
  | .ok _, .error _ => isFalse (by simp)
  | .error _, .ok _ => isFalse (by simp)

namespace ixbrl

/-- Period (xbrli:period): start date, instant, end date, all as literal text. -/
structure Period where
  startDate : Str
  instant : Str
  endDate : Str
deriving DecidableEq, Repr

/-- Context (xbrli:context). The Entity/Segment component is not referenced
by any verified claim and is omitted from the embedding. -/
structure Context where
  id : Str
  period : Period
deriving DecidableEq, Repr

/-- NonFraction (ix:nonfraction): numeric fact. -/
structure NonFraction where
  unitRef : Str := []
  decimals : Str := []
  name : Str := []
  format : Str := []
  scale : Str := []
  id : Str := []
  content : Str := []
  contextRef : Str := []
  context : Option Context := none
deriving DecidableEq, Repr

/-- NonNumeric (ix:nonnumeric): textual fact. -/
structure NonNumeric where
  name : Str := []
  format : Str := []
  id : Str := []
  content : Str := []
  contextRef : Str := []
  context : Option Context := none
deriving DecidableEq, Repr

/-- Fraction (ix:fraction). -/
structure Fraction where
  unitRef : Str := []
  name : Str := []
  id : Str := []
  content : Str := []
  contextRef : Str := []
  context : Option Context := none
deriving DecidableEq, Repr

/-- Measure (xbrli:measure). -/
structure Measure where
  content : Str := []
deriving DecidableEq, Repr

/-- Unit (xbrli:unit). -/
structure Unit where
  id : Str := []
  measure : Measure := {}
deriving DecidableEq, Repr

/-- The closed set of struct types the parse registry can decode into. -/
inductive IxStruct where
  | nonFraction (nf : NonFraction)
  | nonNumeric (nn : NonNumeric)
  | fraction (fr : Fraction)
  | context (c : Context)
  | unit (u : Unit)
deriving DecidableEq, Repr

/-- NonFraction.scale(): parse the scale attribute with strconv.Atoi and
raise 10 to it; an unparseable attribute yields multiplier 1. -/
def NonFraction.scaleFactor (nf : NonFraction) : ℚ :=
  match parseAtoi nf.scale with
  | none => 1
  | some z => 10 ^ z

/-- NonFraction.number(): remove all commas from the literal content and
parse; a parse failure yields 0. -/
def NonFraction.number (nf : NonFraction) : ℚ :=
  match parseFloatQ (nf.content.filter (fun c => c ≠ ',')) with
  | none => 0
  | some v => v

/-- NonFraction.ScaledNumber(): scale factor times parsed value. -/
def NonFraction.scaledNumber (nf : NonFraction) : ℚ :=
  nf.scaleFactor * nf.number

mutual

/-- Model of golang.org/x/net/html trees: a text node, an element with its
ordered children, or the document root produced by html.Parse. Comment
nodes are not referenced by any verified claim and are omitted. -/
inductive HNode where
  | text (s : Str)
  | elem (tag : Str) (children : HForest)
  | document (children : HForest)

/-- Ordered child lists of the tree (a mutually inductive forest, kept
separate from `List` so structural recursion and induction are direct). -/
inductive HForest where
  | nil
  | cons (n : HNode) (f : HForest)

end

/-- Build a forest from a list of nodes. -/
def HForest.ofList : List HNode → HForest
  | [] => .nil
  | n :: t => .cons n (HForest.ofList t)

/-- The fixed inline-element set of the flattener, plus the fact that
non-element nodes count as inline (isInlineNode). -/
def HNode.isInlineNode : HNode → Bool
  | .text _ => true
  | .document _ => true
  | .elem tag _ =>
    tag = str "span" || tag = str "em" || tag = str "strong" || tag = str "a" || tag = str "br"

/-- Element-node test (html.ElementNode). -/
def HNode.isElem : HNode → Bool
  | .elem _ _ => true
  | _ => false

/-- Text-node test (html.TextNode). -/
def HNode.isText : HNode → Bool
  | .text _ => true
  | _ => false

/-- Children accessor (FirstChild/NextSibling iteration). -/
def HNode.children : HNode → HForest
  | .text _ => .nil
  | .elem _ cs => cs
  | .document cs => cs

/-- Are all nodes of the forest inline? (onlyInlineChildren's loop). -/
def HForest.allInline : HForest → Bool
  | .nil => true
  | .cons n f => n.isInlineNode && f.allInline

/-- Has the forest no element node? (the loop inside isLeafNode). -/
def HForest.noElem : HForest → Bool
  | .nil => true
  | .cons n f => !n.isElem && f.noElem

/-- isLeafNode: no element-typed children. -/
def HNode.isLeafNode (n : HNode) : Bool := n.children.noElem

mutual

/-- extractText: browser-style flattening of one node. A text node emits its
raw text; an element whose children are all inline renders its subtree as
one whitespace-collapsed run; otherwise children are rendered one by one
with bare text children dropped; block elements append one line break. -/
def extractText : HNode → Str
  | .text s => s
  | .elem tag cs =>
    (if cs.allInline then collapseWS (extractForest true cs) else extractForest false cs) ++
    (if HNode.isInlineNode (.elem tag cs) then [] else ['\n'])
  | .document cs =>
    if cs.allInline then collapseWS (extractForest true cs) else extractForest false cs

/-- The child loop of extractText; the flag records whether all children of
the parent are inline (bare text children are skipped when it is false). -/
def extractForest : Bool → HForest → Str
  | _, .nil => []
  | ai, .cons c f => (if !ai && c.isText then [] else extractText c) ++ extractForest ai f

end

/-- HTMLText: concatenate the flattening of each node, then trim. -/
def HTMLText (nodes : List HNode) : Str := trimSpace (nodes.flatMap extractText)

/-- The registry of decodable iXBRL tag names. -/
def registryTags : List Str :=
  [str "ix:nonfraction", str "ix:nonnumeric", str "ix:fraction",
   str "xbrli:context", str "xbrli:unit"]

/-- ParsedNode: a collected namespaced node, its decoded struct (none when
the tag is not in the registry) and its tag name. -/
structure ParsedNode where
  node : HNode
  struct : Option IxStruct
  type : Str

mutual

/-- collectAndParseNodes: walk the tree; record every element whose tag
contains a colon; for registry tags run the render+unmarshal round trip
(modelled by the exogenous `unmarshal` outcome) — on failure the node is
skipped by returning early, which also skips its entire subtree. -/
def collectAndParseNodes (unmarshal : HNode → Option IxStruct) : HNode → List ParsedNode
  | .text _ => []
  | .elem tag cs =>
    if strHas tag [':'] then
      if tag ∈ registryTags then
        match unmarshal (.elem tag cs) with
        | none => []
        | some s => ⟨.elem tag cs, some s, tag⟩ :: collectForest unmarshal cs
      else ⟨.elem tag cs, none, tag⟩ :: collectForest unmarshal cs
    else collectForest unmarshal cs
  | .document cs => collectForest unmarshal cs

/-- The child loop of collectAndParseNodes. -/
def collectForest (unmarshal : HNode → Option IxStruct) : HForest → List ParsedNode
  | .nil => []
  | .cons c f => collectAndParseNodes unmarshal c ++ collectForest unmarshal f

end

mutual

/-- Every namespaced element of the tree that is not inside (or itself) a
registered node whose decode fails: the set of nodes the walk records. -/
def visitedNodes (unmarshal : HNode → Option IxStruct) : HNode → List HNode
  | .text _ => []
  | .elem tag cs =>
    if strHas tag [':'] && decide (tag ∈ registryTags) && (unmarshal (.elem tag cs)).isNone
    then []
    else (if strHas tag [':'] then [HNode.elem tag cs] else []) ++ visitedForest unmarshal cs
  | .document cs => visitedForest unmarshal cs

/-- Forest version of `visitedNodes`. -/
def visitedForest (unmarshal : HNode → Option IxStruct) : HForest → List HNode
  | .nil => []
  | .cons c f => visitedNodes unmarshal c ++ visitedForest unmarshal f

end

mutual

/-- Every namespaced element tag occurring in the tree, in document order. -/
def allNamespacedTags : HNode → List Str
  | .text _ => []
  | .elem tag cs =>
    (if strHas tag [':'] then [tag] else []) ++ allNamespacedTagsF cs
  | .document cs => allNamespacedTagsF cs

/-- Forest version of `allNamespacedTags`. -/
def allNamespacedTagsF : HForest → List Str
  | .nil => []
  | .cons c f => allNamespacedTags c ++ allNamespacedTagsF f

end

/-- getContexts: all decoded Context records, in document order. -/
def getContexts (nodes : List ParsedNode) : List Context :=
  nodes.filterMap fun p =>
    match p.struct with
    | some (.context c) => some c
    | _ => none

/-- The context-resolution loop of Parse: for each Context record whose id
equals the fact's context reference, overwrite the fact's Context (the
loop keeps assigning, so a later match replaces an earlier one). -/
def attachCtx : List Context → Str → Option Context → Option Context
  | [], _, init => init
  | c :: cs, ref, init => attachCtx cs ref (if c.id = ref then some c else init)

/-- The last Context of the list whose id equals `ref`. -/
def lastMatching : List Context → Str → Option Context
  | [], _ => none
  | c :: cs, ref =>
    match lastMatching cs ref with
    | some d => some d
    | none => if c.id = ref then some c else none

/-- Resolution of one decoded struct against the document's Contexts
(the switch inside Parse's post-walk loop). -/
def resolveStruct (contexts : List Context) : IxStruct → IxStruct
  | .nonFraction nf => .nonFraction { nf with context := attachCtx contexts nf.contextRef nf.context }
  | .nonNumeric nn => .nonNumeric { nn with context := attachCtx contexts nn.contextRef nn.context }
  | .fraction fr => .fraction { fr with context := attachCtx contexts fr.contextRef fr.context }
  | s => s

/-- The post-walk phase of Parse: gather Contexts, then resolve every
decoded fact in place. -/
def parsePost (nodes : List ParsedNode) : List ParsedNode :=
  let contexts := getContexts nodes
  nodes.map fun p => { p with struct := p.struct.map (resolveStruct contexts) }

/-- Parse, starting from the already-built html tree (html.Parse itself is
the external golang.org/x/net/html library): collect and decode namespaced
nodes, then resolve contexts. -/
def Parse (unmarshal : HNode → Option IxStruct) (doc : HNode) : List ParsedNode :=
  parsePost (collectAndParseNodes unmarshal doc)

end ixbrl

end LL

namespace LL

namespace ixbrl

/-- Validation of the flattener against the repository's own TestText
fixture (the ul/li tail of the fixture is elided). -/
def testTextTree : HNode := .elem (str "div") (.ofList [
  .elem (str "p") (.ofList [.text (str "First paragraph")]),
  .text (str "\n\t"),
  .elem (str "div") (.ofList [
    .elem (str "span") (.ofList [.text (str "Nested "), .elem (str "br") .nil, .text (str "span")]),
    .text (str "\n\t\t"),
    .elem (str "a") (.ofList [.text (str "Link text")])]),
  .elem (str "p") (.ofList [.text (str "Second "), .elem (str "span") (.ofList [.text (str "paragraph")])])])

example : HTMLText [testTextTree] = str "First paragraph\nNested span Link text\nSecond paragraph" := by
  decide

/-- The resolution loop ends up holding the LAST matching context (or its
initial value when no context matches). -/
theorem attachCtx_eq_lastMatching (ctxs : List Context) (ref : Str) :
    ∀ init : Option Context, attachCtx ctxs ref init = (lastMatching ctxs ref <|> init) := by
  induction ctxs with
  | nil => intro init; simp [attachCtx, lastMatching]
  | cons c cs ih =>
    intro init
    show attachCtx cs ref (if c.id = ref then some c else init) = _
    rw [ih]
    cases h : lastMatching cs ref with
    | some d => simp [lastMatching, h]
    | none =>
      by_cases hc : c.id = ref
      · simp [lastMatching, h, hc]
      · simp [lastMatching, h, hc]

/-- C1 (amended): for every parsed document with duplicate Context ids, the
resolution phase of Parse attaches to each NonFraction/NonNumeric/Fraction
fact whose context reference matches the LAST matching Context in document
order (not the first); duplicate-id contexts are not rejected, both stay in
the collected node list. -/
theorem c1_parse_attaches_last_matching_context :
    (∀ (nodes : List ParsedNode) (i : ℕ) (nd : HNode) (nf : NonFraction) (ty : Str),
      nodes[i]? = some ⟨nd, some (.nonFraction nf), ty⟩ →
      (parsePost nodes)[i]? = some ⟨nd, some (.nonFraction
        { nf with context := lastMatching (getContexts nodes) nf.contextRef <|> nf.context }), ty⟩) ∧
    (∀ (nodes : List ParsedNode) (i : ℕ) (nd : HNode) (nn : NonNumeric) (ty : Str),
      nodes[i]? = some ⟨nd, some (.nonNumeric nn), ty⟩ →
      (parsePost nodes)[i]? = some ⟨nd, some (.nonNumeric
        { nn with context := lastMatching (getContexts nodes) nn.contextRef <|> nn.context }), ty⟩) ∧
    (∀ (nodes : List ParsedNode) (i : ℕ) (nd : HNode) (fr : Fraction) (ty : Str),
      nodes[i]? = some ⟨nd, some (.fraction fr), ty⟩ →
      (parsePost nodes)[i]? = some ⟨nd, some (.fraction
        { fr with context := lastMatching (getContexts nodes) fr.contextRef <|> fr.context }), ty⟩) := by
  refine ⟨?_, ?_, ?_⟩ <;>
  · intro nodes i nd x ty h
    simp only [parsePost, List.getElem?_map, h, Option.map_some]
    simp [resolveStruct, attachCtx_eq_lastMatching]

/-- First Context sharing the duplicated id "c-1" (period ending 2021). -/
def c1ctxA : Context := ⟨str "c-1", ⟨str "2021-01-01", [], str "2021-12-31"⟩⟩

/-- Second Context sharing the duplicated id "c-1" (period ending 2022). -/
def c1ctxB : Context := ⟨str "c-1", ⟨str "2022-01-01", [], str "2022-12-31"⟩⟩

/-- A numeric fact referencing the duplicated id. -/
def c1fact : NonFraction := { content := str "5", contextRef := str "c-1" }

/-- The collected node list of a document holding two same-id Contexts and
one fact referencing that id. -/
def c1nodes : List ParsedNode :=
  [⟨.text [], some (.context c1ctxA), str "xbrli:context"⟩,
   ⟨.text [], some (.context c1ctxB), str "xbrli:context"⟩,
   ⟨.text [], some (.nonFraction c1fact), str "ix:nonfraction"⟩]

/-- Document tree of the duplicate-id counterexample: two xbrli:context
elements (distinguished by their text children) and one ix:nonfraction. -/
def c1doc : HNode := .document (.ofList [
  .elem (str "xbrli:context") (.ofList [.text (str "A")]),
  .elem (str "xbrli:context") (.ofList [.text (str "B")]),
  .elem (str "ix:nonfraction") (.ofList [.text (str "5")])])

/-- Unmarshal outcomes for `c1doc`: each context element decodes to its
Context record (same id "c-1", different periods), the fact decodes to a
NonFraction referencing that id. -/
def c1unmarshal : HNode → Option IxStruct
  | .elem tag (.cons (.text s) .nil) =>
    if tag = str "xbrli:context" then
      some (.context (if s = str "A" then c1ctxA else c1ctxB))
    else if tag = str "ix:nonfraction" then some (.nonFraction c1fact)
    else none
  | _ => none

/-- C1 counterexample: with two Contexts sharing id "c-1" (first in document
order c1ctxA, then c1ctxB), Parse attaches the SECOND Context c1ctxB to the
fact, refuting the claim that the first match wins; both duplicate contexts
are kept. -/
theorem c1_counterexample :
    getContexts (collectAndParseNodes c1unmarshal c1doc) = [c1ctxA, c1ctxB] ∧
    c1ctxA.id = c1ctxB.id ∧ c1ctxA ≠ c1ctxB ∧
    (Parse c1unmarshal c1doc).map (fun p => p.struct) =
      [some (.context c1ctxA), some (.context c1ctxB),
       some (.nonFraction { c1fact with context := some c1ctxB })] := by
  decide

/-- C1 witness: the amended theorem applied to the concrete duplicate-id
document. -/
theorem c1_witness :
    (parsePost c1nodes)[2]? = some ⟨.text [], some (.nonFraction
      { c1fact with context := lastMatching (getContexts c1nodes) c1fact.contextRef <|> c1fact.context }),
      str "ix:nonfraction"⟩ :=
  c1_parse_attaches_last_matching_context.1 c1nodes 2 (.text []) c1fact (str "ix:nonfraction") (by rfl)

mutual

/-- Helper for the C2 refinement, proved mutually with its forest version. -/
theorem collectNodes_eq_visited_aux (u : HNode → Option IxStruct) :
    ∀ n : HNode, (collectAndParseNodes u n).map (fun p => p.node) = visitedNodes u n
  | .text s => by simp [collectAndParseNodes, visitedNodes]
  | .elem tag cs => by
    simp only [collectAndParseNodes, visitedNodes]
    by_cases h1 : strHas tag [':']
    · by_cases h2 : tag ∈ registryTags
      · cases h3 : u (.elem tag cs) with
        | none => simp [h1, h2, h3]
        | some s => simp [h1, h2, h3, collectForest_eq_visited_aux u cs]
      · simp [h1, h2, collectForest_eq_visited_aux u cs]
    · simp [h1, collectForest_eq_visited_aux u cs]
  | .document cs => by
    simp only [collectAndParseNodes, visitedNodes]
    exact collectForest_eq_visited_aux u cs

/-- Forest version of `collectNodes_eq_visited_aux`. -/
theorem collectForest_eq_visited_aux (u : HNode → Option IxStruct) :
    ∀ f : HForest, (collectForest u f).map (fun p => p.node) = visitedForest u f
  | .nil => by simp [collectForest, visitedForest]
  | .cons c f => by
    simp [collectForest, visitedForest, collectNodes_eq_visited_aux u c,
      collectForest_eq_visited_aux u f]

end

/-- C2 (amended): the collection walk records exactly the namespaced
elements that are not inside (nor themselves) a registered node whose
decode failed: a single decode failure never aborts the walk elsewhere in
the document, but it does skip the failed node's entire subtree. -/
theorem c2_walk_records_outside_failed_subtrees (u : HNode → Option IxStruct) (n : HNode) :
    (collectAndParseNodes u n).map (fun p => p.node) = visitedNodes u n :=
  collectNodes_eq_visited_aux u n

/-- Decode outcome for the C2 counterexample: the ix:nonfraction node fails
to decode (in Go this happens when html.Render of the node emits markup
that is not well-formed XML, e.g. a void br element inside the fact). -/
def c2unmarshal : HNode → Option IxStruct := fun _ => none

/-- Document whose failing ix:nonfraction node contains another namespaced
element (custom:el); a further namespaced sibling (custom:other) follows. -/
def c2doc : HNode := .document (.ofList [
  .elem (str "html") (.ofList [
    .elem (str "body") (.ofList [
      .elem (str "ix:nonfraction") (.ofList [
        .elem (str "br") .nil,
        .elem (str "custom:el") (.ofList [.text (str "x")])]),
      .elem (str "custom:other") (.ofList [.text (str "y")])])])])

/-- C2 counterexample: the document contains three namespaced elements, yet
after the registered ix:nonfraction node fails to decode, only
custom:other is recorded — custom:el (inside the failed subtree) is never
visited, refuting the claim that every other namespaced element is still
recorded. -/
theorem c2_counterexample :
    allNamespacedTags c2doc = [str "ix:nonfraction", str "custom:el", str "custom:other"] ∧
    (collectAndParseNodes c2unmarshal c2doc).map (fun p => p.type) = [str "custom:other"] := by
  decide

/-- After dropWhile, the head (if any) no longer satisfies the predicate. -/
theorem head_dropWhile_not (p : Char → Bool) (l : Str) :
    ∀ c ∈ (l.dropWhile p).head?, p c = false := by
  induction l with
  | nil => simp
  | cons a t ih =>
    by_cases h : p a
    · simpa [List.dropWhile_cons, h] using ih
    · simp [List.dropWhile_cons, h]

/-- dropWhile keeps the last element when its result is nonempty. -/
theorem getLast?_dropWhile (p : Char → Bool) (l : Str) (h : l.dropWhile p ≠ []) :
    (l.dropWhile p).getLast? = l.getLast? := by
  induction l with
  | nil => simp at h
  | cons a t ih =>
    by_cases hp : p a
    · rw [List.dropWhile_cons_of_pos hp] at h ⊢
      cases t with
      | nil => simp at h
      | cons b u =>
        rw [List.getLast?_cons_cons]
        exact ih h
    · rw [List.dropWhile_cons_of_neg hp]

/-- C7 (amended, first half of the claim, which holds): the flattened text
of any node list has no leading and no trailing whitespace. (The second
half of the claim — no run of consecutive blank lines — is refuted by
`c7_counterexample` below.) -/
theorem c7_htmltext_has_no_edge_whitespace (ns : List LL.ixbrl.HNode) :
    (∀ c ∈ (HTMLText ns).head?, isSpaceChar c = false) ∧
    (∀ c ∈ (HTMLText ns).getLast?, isSpaceChar c = false) := by
  unfold HTMLText trimSpace
  constructor
  · intro c hc
    rw [List.head?_reverse] at hc
    by_cases hemp : ((ns.flatMap extractText).dropWhile isSpaceChar).reverse.dropWhile isSpaceChar = []
    · simp [hemp] at hc
    · rw [getLast?_dropWhile _ _ hemp, List.getLast?_reverse] at hc
      exact head_dropWhile_not _ _ c hc
  · intro c hc
    rw [List.getLast?_reverse] at hc
    exact head_dropWhile_not _ _ c hc

/-- C7 witness: the no-edge-whitespace theorem applied to a concrete node
whose raw text has surrounding whitespace. -/
theorem c7_witness :
    (HTMLText [HNode.text (str "  a  ")]).head? = some 'a' ∧ isSpaceChar 'a' = false :=
  ⟨by decide, (c7_htmltext_has_no_edge_whitespace [HNode.text (str "  a  ")]).1 'a' (by decide)⟩

/-- A document-shaped tree (as html.Parse would build for nested div
blocks: html(head, body(div(div(div(a))), div(b)))). -/
def c7doc : HNode := .document (.ofList [
  .elem (str "html") (.ofList [
    .elem (str "head") .nil,
    .elem (str "body") (.ofList [
      .elem (str "div") (.ofList [
        .elem (str "div") (.ofList [
          .elem (str "div") (.ofList [.text (str "a")])])]),
      .elem (str "div") (.ofList [.text (str "b")])])])])

/-- C7 counterexample: three nested block wrappers emit one newline each, so
the flattened document text is "a\n\n\nb" — the lines between "a" and "b"
are two consecutive blank lines, refuting the no-blank-line-run half of the
claim. -/
theorem c7_counterexample :
    HTMLText [c7doc] = str "a\n\n\nb" ∧
    strHas (HTMLText [c7doc]) (str "\n\n\n") = true := by
  decide

/-- C9: ScaledNumber strips the thousands separators from the literal
content before parsing and multiplies by ten to the scale exponent; scale
"3" with literal "27,163" yields 27163000; an unparseable scale attribute
defaults the multiplier to 1. -/
theorem c9_scaled_number :
    ({ scale := str "3", content := str "27,163" } : NonFraction).scaledNumber = 27163000 ∧
    (∀ nf : NonFraction, parseAtoi nf.scale = none →
      nf.scaleFactor = 1 ∧ nf.scaledNumber = nf.number) ∧
    (∀ (nf : NonFraction) (z : ℤ), parseAtoi nf.scale = some z →
      nf.scaledNumber = 10 ^ z * nf.number) ∧
    (∀ nf : NonFraction,
      nf.number = (parseFloatQ (nf.content.filter (fun c => c ≠ ','))).getD 0) := by
  have hex : ({ scale := str "3", content := str "27,163" } : NonFraction).scaledNumber =
      (10 : ℚ) ^ (1 * natOfDigits (str "3") : ℤ) *
        (1 * (natOfDigits (str "27163") : ℚ)) := rfl
  refine ⟨?_, ?_, ?_, ?_⟩
  · rw [hex, show (natOfDigits (str "3") : ℤ) = 3 by decide,
      show natOfDigits (str "27163") = 27163 by decide]
    norm_num
  · intro nf h
    constructor
    · simp [NonFraction.scaleFactor, h]
    · simp [NonFraction.scaledNumber, NonFraction.scaleFactor, h]
  · intro nf z h
    simp [NonFraction.scaledNumber, NonFraction.scaleFactor, h]
  · intro nf
    unfold NonFraction.number
    cases parseFloatQ (nf.content.filter (fun c => c ≠ ',')) <;> simp

/-- C9 witness: the default-multiplier branch of `c9_scaled_number` applied
to a fact whose scale attribute does not parse. -/
theorem c9_witness :
    parseAtoi (str "") = none ∧
    ({ scale := str "", content := str "4.5" } : NonFraction).scaleFactor = 1 := by
  refine ⟨by decide, ?_⟩
  exact (c9_scaled_number.2.1 { scale := str "", content := str "4.5" } (by decide)).1

end ixbrl

namespace irsform

/-- BusinessNameType (only the first name line is read downstream). -/
structure BusinessNameType where
  businessNameLine1Txt : Str := []
deriving DecidableEq, Repr

/-- Filer of the return header. -/
structure Filer where
  businessName : BusinessNameType := {}
deriving DecidableEq, Repr

/-- ReturnHeader: return-type discriminant, filer and tax period. -/
structure ReturnHeader where
  returnTypeCd : Str := []
  filer : Filer := {}
  taxPeriodEndDt : Str := []
  taxPeriodBeginDt : Str := []
deriving DecidableEq, Repr

/-- IRS990: the fields of the generated schema struct that FromIRS reads
(the full generated struct file is not part of the verified sources). -/
structure IRS990 where
  principalOfcrBusinessName : Option BusinessNameType := none
  totalEmployeeCnt : ℤ := 0
  cyTotalRevenueAmt : ℤ := 0
  cyTotalExpensesAmt : ℤ := 0
  netAssetsOrFundBalancesEOYAmt : ℤ := 0
  cySalariesCompEmpBnftPaidAmt : ℤ := 0
  pySalariesCompEmpBnftPaidAmt : ℤ := 0
deriving DecidableEq, Repr

/-- IRS990EZ: the fields FromIRS reads. -/
structure IRS990EZ where
  totalRevenueAmt : ℤ := 0
  totalExpensesAmt : ℤ := 0
  netAssetsOrFundBalancesEOYAmt : ℤ := 0
deriving DecidableEq, Repr

/-- IRS990PF: the payload is recognized but deliberately unimplemented
downstream (FromIRS reads none of its fields), so it carries no fields. -/
structure IRS990PF where
deriving DecidableEq, Repr

/-- ReturnData990: payload wrapper whose inner pointer can be nil. -/
structure ReturnData990 where
  irs990 : Option IRS990 := none
deriving DecidableEq, Repr

/-- ReturnData990EZ. -/
structure ReturnData990EZ where
  irs990EZ : Option IRS990EZ := none
deriving DecidableEq, Repr

/-- ReturnData990PF. -/
structure ReturnData990PF where
  irs990PF : Option IRS990PF := none
deriving DecidableEq, Repr

/-- The closed set of payload shapes Parse can produce (the Go interface
value behind ReturnDataInterface). -/
inductive ReturnData where
  | data990 (d : ReturnData990)
  | data990EZ (d : ReturnData990EZ)
  | data990PF (d : ReturnData990PF)
deriving DecidableEq, Repr

/-- GetFormType of the decoded payload. -/
def ReturnData.getFormType : ReturnData → Str
  | .data990 _ => str "990"
  | .data990EZ _ => str "990EZ"
  | .data990PF _ => str "990PF"

/-- Return: header plus the dispatched payload. The version attribute is
not referenced by any verified claim and is omitted. -/
structure Return where
  returnHeader : ReturnHeader := {}
  returnData : ReturnData
deriving DecidableEq, Repr

/-- SupportedReturnTypes: the public queryable constant consulted by the
crawler before requesting a document. -/
def SupportedReturnTypes : List Str := [str "990", str "990EZ"]

/-- IsSupportedReturnType (slices.Contains over the constant). -/
def IsSupportedReturnType (returnType : Str) : Bool :=
  decide (returnType ∈ SupportedReturnTypes)

/-- The outcomes of the xml.Unmarshal calls Parse can make on one fixed
byte buffer: the header-only pass and the three shape-specific second
passes. encoding/xml is an external library, so its results on the buffer
are taken as inputs of the embedding. -/
structure RawReturnXml where
  headerResult : Option ReturnHeader := none
  result990 : Option ReturnData990 := none
  result990EZ : Option ReturnData990EZ := none
  result990PF : Option ReturnData990PF := none
deriving DecidableEq, Repr

/-- Parse: first pass reads only the header; an empty ReturnTypeCd is an
error; the switch re-parses the buffer with the payload shape selected by
the discriminant ("990", "990EZ" and also "990PF"); any other code is the
unsupported-return-type error. -/
def Parse (x : RawReturnXml) : Except Str Return :=
  match x.headerResult with
  | none => .error (str "failed to parse return header")
  | some hr =>
    if hr.returnTypeCd = [] then .error (str "ReturnTypeCd is empty in header")
    else if hr.returnTypeCd = str "990" then
      match x.result990 with
      | none => .error (str "failed to unmarshal Return with ReturnData990")
      | some rd => .ok { returnHeader := hr, returnData := .data990 rd }
    else if hr.returnTypeCd = str "990EZ" then
      match x.result990EZ with
      | none => .error (str "failed to unmarshal Return with ReturnData990EZ")
      | some rd => .ok { returnHeader := hr, returnData := .data990EZ rd }
    else if hr.returnTypeCd = str "990PF" then
      match x.result990PF with
      | none => .error (str "failed to unmarshal Return with ReturnData990PF")
      | some rd => .ok { returnHeader := hr, returnData := .data990PF rd }
    else .error (str "unsupported return type: '" ++ hr.returnTypeCd ++ str "'")

/-- C3 (amended): an empty return-type code fails with the missing-form-type
error; a code outside {990, 990EZ, 990PF} fails with the unsupported-type
error; but the switch also accepts "990PF", which is NOT in the public
constant SupportedReturnTypes = {"990", "990EZ"} — the failing set is the
complement of {990, 990EZ, 990PF}, not of SupportedReturnTypes. -/
theorem c3_return_type_dispatch :
    SupportedReturnTypes = [str "990", str "990EZ"] ∧
    (∀ t : Str, IsSupportedReturnType t = true ↔ (t = str "990" ∨ t = str "990EZ")) ∧
    (∀ (x : RawReturnXml) (hr : ReturnHeader), x.headerResult = some hr →
      hr.returnTypeCd = [] →
      Parse x = .error (str "ReturnTypeCd is empty in header")) ∧
    (∀ (x : RawReturnXml) (hr : ReturnHeader), x.headerResult = some hr →
      hr.returnTypeCd ≠ [] →
      hr.returnTypeCd ∉ [str "990", str "990EZ", str "990PF"] →
      Parse x = .error (str "unsupported return type: '" ++ hr.returnTypeCd ++ str "'")) ∧
    (∀ (x : RawReturnXml) (hr : ReturnHeader) (rd : ReturnData990PF),
      x.headerResult = some hr → hr.returnTypeCd = str "990PF" → x.result990PF = some rd →
      Parse x = .ok { returnHeader := hr, returnData := .data990PF rd }) := by
  refine ⟨rfl, ?_, ?_, ?_, ?_⟩
  · intro t
    simp [IsSupportedReturnType, SupportedReturnTypes]
  · intro x hr hx hcd
    simp [Parse, hx, hcd]
  · intro x hr hx hne hnotin
    simp only [List.mem_cons, List.not_mem_nil, or_false, not_or] at hnotin
    simp [Parse, hx, hne, hnotin.1, hnotin.2.1, hnotin.2.2]
  · intro x hr rd hx hcd hres
    simp only [Parse, hx, hcd, hres]
    rw [if_neg (by decide), if_neg (by decide), if_neg (by decide), if_pos (by decide)]

/-- The header/payload decode outcomes of a well-formed 990PF return. -/
def c3doc : RawReturnXml :=
  { headerResult := some { returnTypeCd := str "990PF" },
    result990PF := some { irs990PF := some {} } }

/-- C3 counterexample: a return whose code "990PF" is not in
SupportedReturnTypes = {"990","990EZ"} nevertheless parses successfully —
Parse does not fail with the unsupported-return-type error for it. -/
theorem c3_counterexample :
    IsSupportedReturnType (str "990PF") = false ∧
    Parse c3doc = .ok { returnHeader := { returnTypeCd := str "990PF" },
                        returnData := .data990PF { irs990PF := some {} } } := by
  decide

/-- C3 witness: the amended theorem's discriminant branches applied to
concrete headers. -/
theorem c3_witness :
    Parse { headerResult := some { returnTypeCd := [] } } =
      .error (str "ReturnTypeCd is empty in header") ∧
    Parse { headerResult := some { returnTypeCd := str "990X" } } =
      .error (str "unsupported return type: '" ++ str "990X" ++ str "'") :=
  ⟨c3_return_type_dispatch.2.2.1 _ _ rfl rfl,
   c3_return_type_dispatch.2.2.2.1 _ _ rfl (by decide) (by decide)⟩

end irsform

namespace facts

/-- Gregorian leap-year rule (as applied by Go's time package). -/
def isLeapYear (y : ℕ) : Bool := (y % 4 = 0 && y % 100 ≠ 0) || y % 400 = 0

/-- Days in a month. -/
def daysInMonth (y m : ℕ) : ℕ :=
  if m = 2 then (if isLeapYear y then 29 else 28)
  else if m = 4 || m = 6 || m = 9 || m = 11 then 30 else 31

/-- time.Parse with layout "2006-01-02": exactly `dddd-dd-dd`, with the
month and day validated against the calendar. -/
def parseDate (s : Str) : Option (ℕ × ℕ × ℕ) :=
  match s with
  | [y1, y2, y3, y4, '-', m1, m2, '-', d1, d2] =>
    if [y1, y2, y3, y4].all isDigitChar && [m1, m2].all isDigitChar && [d1, d2].all isDigitChar
    then
      let y := natOfDigits [y1, y2, y3, y4]
      let m := natOfDigits [m1, m2]
      let d := natOfDigits [d1, d2]
      if 1 ≤ m && m ≤ 12 && 1 ≤ d && d ≤ daysInMonth y m then some (y, m, d) else none
    else none
  | _ => none

/-- Encode a civil date as a single comparable key (year, then month, then
day); for any two valid civil dates this order agrees with the order of the
time.Time instants Go compares with After. -/
def encodeDate (d : ℕ × ℕ × ℕ) : ℕ := d.1 * 10000 + d.2.1 * 100 + d.2.2

/-- The key of Go's zero time.Time, January 1 of year 1 (the value
getLatestDate returns for a missing context or an unparseable date). -/
def zeroTimeKey : ℕ := 10101

/-- getLatestDate: pick EndDate, else Instant, else StartDate from the
fact's context period, parse it, and fall back to the zero time on a
missing context or a parse failure. -/
def getLatestDate (nf : ixbrl.NonFraction) : ℕ :=
  match nf.context with
  | none => zeroTimeKey
  | some ctx =>
    let p := ctx.period
    let dateStr := if p.endDate ≠ [] then p.endDate else if p.instant ≠ [] then p.instant else p.startDate
    match parseDate dateStr with
    | none => zeroTimeKey
    | some ymd => encodeDate ymd

/-- The ordering sort.Slice establishes with less(i,j) = dateI.After(dateJ):
`a` may precede `b` exactly when a's key is at least b's key (reverse
chronological, ties free). -/
def nfBefore (a b : ixbrl.NonFraction) : Prop := getLatestDate b ≤ getLatestDate a

instance : DecidableRel nfBefore := fun x y => Nat.decLe (getLatestDate y) (getLatestDate x)

instance : IsTotal ixbrl.NonFraction nfBefore :=
  ⟨fun a b => Nat.le_total (getLatestDate b) (getLatestDate a)⟩

instance : IsTrans ixbrl.NonFraction nfBefore :=
  ⟨fun _ _ _ h1 h2 => Nat.le_trans h2 h1⟩

/-- sortNonFractionsByDate: sort.Slice with the After comparator. sort.Slice
returns an unspecified sorted permutation; it is modelled by insertion
sort — every property proved about it (sortedness, and examples whose keys
are pairwise distinct) holds for any sorted permutation. -/
def sortNonFractionsByDate (l : List ixbrl.NonFraction) : List ixbrl.NonFraction :=
  List.insertionSort nfBefore l

/-- Days since the civil epoch 1970-01-01 (Howard Hinnant's days_from_civil,
the arithmetic Go's time package performs for date/instant conversion). -/
def daysFromCivil (y m d : ℤ) : ℤ :=
  let y2 := if m ≤ 2 then y - 1 else y
  let era := (if 0 ≤ y2 then y2 else y2 - 399) / 400
  let yoe := y2 - era * 400
  let doy := (153 * (if 2 < m then m - 3 else m + 9) + 2) / 5 + d - 1
  let doe := yoe * 365 + yoe / 4 - yoe / 100 + doy
  era * 146097 + doe - 719468

/-- Civil date from days since 1970-01-01 (civil_from_days). -/
def civilFromDays (z : ℤ) : ℤ × ℤ × ℤ :=
  let z2 := z + 719468
  let era := (if 0 ≤ z2 then z2 else z2 - 146096) / 146097
  let doe := z2 - era * 146097
  let yoe := (doe - doe / 1460 + doe / 36524 - doe / 146096) / 365
  let y := yoe + era * 400
  let doy := doe - (365 * yoe + yoe / 4 - yoe / 100)
  let mp := (5 * doy + 2) / 153
  let d := doy - (153 * mp + 2) / 5 + 1
  let m := if mp < 10 then mp + 3 else mp - 9
  (if m ≤ 2 then y + 1 else y, m, d)

/-- Decimal digits of a natural number, zero-padded to the given width. -/
def padNat (width : ℕ) (n : ℕ) : Str :=
  let s := Nat.toDigits 10 n
  List.replicate (width - s.length) '0' ++ s

/-- Format a civil date with layout "2006-01-02". -/
def formatCivil (t : ℤ × ℤ × ℤ) : Str :=
  padNat 4 t.1.toNat ++ '-' :: padNat 2 t.2.1.toNat ++ '-' :: padNat 2 t.2.2.toNat

/-- minusOneYear: parse the date, subtract 365 days for the start and one
day for the end (t.Add of -365*24h and -24h on a midnight instant), format
both; a parse failure yields two empty strings. -/
def minusOneYear (date : Str) : Str × Str :=
  match parseDate date with
  | none => ([], [])
  | some (y, m, d) =>
    let g := daysFromCivil (y : ℤ) (m : ℤ) (d : ℤ)
    (formatCivil (civilFromDays (g - 365)), formatCivil (civilFromDays (g - 1)))

example : minusOneYear (str "2023-01-01") = (str "2022-01-01", str "2022-12-31") := by decide

example : minusOneYear (str "2024-03-01") = (str "2023-03-02", str "2024-02-29") := by decide

/-- strconv.Itoa. -/
def intToStr (z : ℤ) : Str :=
  if z < 0 then '-' :: Nat.toDigits 10 (-z).toNat else Nat.toDigits 10 z.toNat

example : intToStr 500000 = str "500000" := by decide

example : intToStr (-45) = str "-45" := by decide

/-- valueToIxFraction: wrap a derived integer value as a NonFraction with
scale "0" and a synthetic context holding the given period. -/
def valueToIxFraction (val : ℤ) (start stop : Str) : ixbrl.NonFraction :=
  { scale := str "0",
    content := intToStr val,
    context := some { id := [], period := { startDate := start, instant := [], endDate := stop } } }

/-- CEOPayRatio: the raw matched window and the two extracted amounts. -/
structure CEOPayRatio where
  text : Str := []
  ceo : ℚ := 0
  median : ℚ := 0
deriving DecidableEq, Repr

/-- Facts: the aggregate record. Fields not referenced by any verified
claim (Filings, ExecCompensationHTML, CEOPayRatio, TotalRevenue,
TotalExpenses) are omitted from the embedding. -/
structure Facts where
  cik : Str := []
  ein : Str := []
  ticker : Str := []
  companyName : Str := []
  netIncomeLoss : List ixbrl.NonFraction := []
  buybacks : List ixbrl.NonFraction := []
  cash : List ixbrl.NonFraction := []
  workerPay : List ixbrl.NonFraction := []
  employeesCount : ℤ := 0
  netAssets : Option ixbrl.NonFraction := none
deriving DecidableEq, Repr

/-- The terminal sort calls shared by FromEdgar and FromIRS: NetIncomeLoss,
Buybacks and Cash are sorted; WorkerPay is NOT among them in the source. -/
def finalSort (f : Facts) : Facts :=
  { f with
    netIncomeLoss := sortNonFractionsByDate f.netIncomeLoss,
    buybacks := sortNonFractionsByDate f.buybacks,
    cash := sortNonFractionsByDate f.cash }

/-- FromIRS: nil document is an error; company name comes from the filer
name line when non-empty; each recognized payload with a nil inner pointer
is an error; the 990 branch fills employee count, derived net income, net
assets and the two worker-pay entries (current year first, prior year
second); the 990EZ branch fills derived net income and net assets; the
990PF branch with a populated payload does nothing (TODO in the source)
and falls through to the terminal sorts. -/
def FromIRS : Option irsform.Return → Except Str Facts
  | none => .error (str "invalid return data: nil return document")
  | some r =>
    let line1 := r.returnHeader.filer.businessName.businessNameLine1Txt
    let f0 : Facts := if line1 ≠ [] then { companyName := line1 } else {}
    match r.returnData with
    | .data990 d =>
      match d.irs990 with
      | none => .error (str "invalid return data: missing IRS990")
      | some irs990 =>
        let beginDt := r.returnHeader.taxPeriodBeginDt
        let endDt := r.returnHeader.taxPeriodEndDt
        let f1 := { f0 with
          employeesCount := irs990.totalEmployeeCnt,
          netIncomeLoss := f0.netIncomeLoss ++
            [valueToIxFraction (irs990.cyTotalRevenueAmt - irs990.cyTotalExpensesAmt) beginDt endDt],
          netAssets := some (valueToIxFraction irs990.netAssetsOrFundBalancesEOYAmt beginDt endDt) }
        let f2 :=
          match irs990.principalOfcrBusinessName with
          | some bn =>
            if f1.companyName = [] && bn.businessNameLine1Txt ≠ []
            then { f1 with companyName := bn.businessNameLine1Txt }
            else f1
          | none => f1
        let py := minusOneYear beginDt
        let f3 := { f2 with workerPay := f2.workerPay ++
          [valueToIxFraction irs990.cySalariesCompEmpBnftPaidAmt beginDt endDt,
           valueToIxFraction irs990.pySalariesCompEmpBnftPaidAmt py.1 py.2] }
        .ok (finalSort f3)
    | .data990EZ d =>
      match d.irs990EZ with
      | none => .error (str "invalid return data: missing IRS990EZ")
      | some ez =>
        let beginDt := r.returnHeader.taxPeriodBeginDt
        let endDt := r.returnHeader.taxPeriodEndDt
        let f1 := { f0 with
          netIncomeLoss := f0.netIncomeLoss ++
            [valueToIxFraction (ez.totalRevenueAmt - ez.totalExpensesAmt) beginDt endDt],
          netAssets := some (valueToIxFraction ez.netAssetsOrFundBalancesEOYAmt beginDt endDt) }
        .ok (finalSort f1)
    | .data990PF d =>
      match d.irs990PF with
      | none => .error (str "invalid return data: missing IRS990PF")
      | some _ => .ok (finalSort f0)

/-- C4 (amended): FromIRS fails immediately (no Facts) on a nil return
document and on any recognized payload whose inner pointer is nil; but a
990PF payload that IS populated is not rejected — the branch is an
unimplemented TODO that falls through and returns a Facts carrying only
the filer name. -/
theorem c4_fromirs_error_conditions :
    FromIRS none = .error (str "invalid return data: nil return document") ∧
    (∀ r : irsform.Return, r.returnData = .data990 { irs990 := none } →
      FromIRS (some r) = .error (str "invalid return data: missing IRS990")) ∧
    (∀ r : irsform.Return, r.returnData = .data990EZ { irs990EZ := none } →
      FromIRS (some r) = .error (str "invalid return data: missing IRS990EZ")) ∧
    (∀ r : irsform.Return, r.returnData = .data990PF { irs990PF := none } →
      FromIRS (some r) = .error (str "invalid return data: missing IRS990PF")) ∧
    (∀ (r : irsform.Return) (p : irsform.IRS990PF),
      r.returnData = .data990PF { irs990PF := some p } →
      FromIRS (some r) =
        .ok { companyName := r.returnHeader.filer.businessName.businessNameLine1Txt }) := by
  refine ⟨rfl, ?_, ?_, ?_, ?_⟩
  · intro r h; simp [FromIRS, h]
  · intro r h; simp [FromIRS, h]
  · intro r h; simp [FromIRS, h]
  · intro r p h
    by_cases hl : r.returnHeader.filer.businessName.businessNameLine1Txt = []
    · simp [FromIRS, h, hl, finalSort, sortNonFractionsByDate, List.insertionSort]
    · simp [FromIRS, h, hl, finalSort, sortNonFractionsByDate, List.insertionSort]

/-- A return document with a populated (non-nil) 990PF payload. -/
def c4return : irsform.Return := { returnData := .data990PF { irs990PF := some {} } }

/-- C4 counterexample: the recognized-but-unimplemented 990PF variant with a
populated payload does NOT make FromIRS fail — it returns an (empty) Facts
record with no error, refuting the claim that this input always fails. -/
theorem c4_counterexample : FromIRS (some c4return) = .ok ({} : Facts) := by decide

/-- C4 witness: the nil-inner-pointer branches of the amended theorem at
concrete returns. -/
theorem c4_witness :
    FromIRS (some { returnData := .data990 { irs990 := none } }) =
      .error (str "invalid return data: missing IRS990") ∧
    FromIRS (some { returnData := .data990PF { irs990PF := none } }) =
      .error (str "invalid return data: missing IRS990PF") :=
  ⟨c4_fromirs_error_conditions.2.1 _ rfl, c4_fromirs_error_conditions.2.2.2.1 _ rfl⟩

/-- Fact with period end-date 2021-12-31. -/
def c5f2021 : ixbrl.NonFraction :=
  { context := some { id := [], period := { startDate := [], instant := [], endDate := str "2021-12-31" } } }

/-- Fact with period end-date 2022-12-31. -/
def c5f2022 : ixbrl.NonFraction :=
  { context := some { id := [], period := { startDate := [], instant := [], endDate := str "2022-12-31" } } }

/-- Fact with period end-date 2023-12-31. -/
def c5f2023 : ixbrl.NonFraction :=
  { context := some { id := [], period := { startDate := [], instant := [], endDate := str "2023-12-31" } } }

/-- C5 (amended): sortNonFractionsByDate orders any list reverse-
chronologically under the EndDate-then-Instant-then-StartDate key, with a
missing context or an unparseable date keyed as the Go zero time (January 1
of year 1, hence sorting last among facts dated in year 1 or later); the
three-fact example sorts as the spec states; and after FromIRS succeeds the
NetIncomeLoss, Buybacks and Cash series are so ordered — but WorkerPay is
NOT among the sorted series (see the counterexample). -/
theorem c5_time_series_ordering :
    (∀ l : List ixbrl.NonFraction, List.Sorted nfBefore (sortNonFractionsByDate l)) ∧
    sortNonFractionsByDate [c5f2022, c5f2023, c5f2021] = [c5f2023, c5f2022, c5f2021] ∧
    (∀ (r : Option irsform.Return) (f : Facts), FromIRS r = .ok f →
      List.Sorted nfBefore f.netIncomeLoss ∧ List.Sorted nfBefore f.buybacks ∧
      List.Sorted nfBefore f.cash) ∧
    (∀ nf : ixbrl.NonFraction, nf.context = none → getLatestDate nf = zeroTimeKey) ∧
    (∀ (nf : ixbrl.NonFraction) (ctx : ixbrl.Context), nf.context = some ctx →
      getLatestDate nf =
        (parseDate (if ctx.period.endDate ≠ [] then ctx.period.endDate
          else if ctx.period.instant ≠ [] then ctx.period.instant
          else ctx.period.startDate)).elim zeroTimeKey encodeDate) := by
  refine ⟨fun l => List.sorted_insertionSort nfBefore l, by decide, ?_, ?_, ?_⟩
  · intro r f h
    match r with
    | none => simp [FromIRS] at h
    | some rr =>
      cases hrd : rr.returnData with
      | data990 d =>
        cases hd : d.irs990 with
        | none => simp [FromIRS, hrd, hd] at h
        | some irs =>
          simp only [FromIRS, hrd, hd] at h
          obtain rfl : _ = f := Except.ok.inj h
          exact ⟨List.sorted_insertionSort nfBefore _, List.sorted_insertionSort nfBefore _,
            List.sorted_insertionSort nfBefore _⟩
      | data990EZ d =>
        cases hd : d.irs990EZ with
        | none => simp [FromIRS, hrd, hd] at h
        | some ez =>
          simp only [FromIRS, hrd, hd] at h
          obtain rfl : _ = f := Except.ok.inj h
          exact ⟨List.sorted_insertionSort nfBefore _, List.sorted_insertionSort nfBefore _,
            List.sorted_insertionSort nfBefore _⟩
      | data990PF d =>
        cases hd : d.irs990PF with
        | none => simp [FromIRS, hrd, hd] at h
        | some p =>
          simp only [FromIRS, hrd, hd] at h
          obtain rfl : _ = f := Except.ok.inj h
          exact ⟨List.sorted_insertionSort nfBefore _, List.sorted_insertionSort nfBefore _,
            List.sorted_insertionSort nfBefore _⟩
  · intro nf h; simp [getLatestDate, h]
  · intro nf ctx h
    simp only [getLatestDate, h]
    cases parseDate (if ctx.period.endDate ≠ [] then ctx.period.endDate
      else if ctx.period.instant ≠ [] then ctx.period.instant
      else ctx.period.startDate) <;> simp

/-- A 990 return whose TaxPeriodEndDt does not parse as a date while
TaxPeriodBeginDt does. -/
def c5return : irsform.Return :=
  { returnHeader := { taxPeriodBeginDt := str "2023-01-01", taxPeriodEndDt := str "garbage" },
    returnData := .data990 { irs990 := some {} } }

/-- The Facts record FromIRS returns for `c5return`. -/
def c5facts : Facts :=
  match FromIRS (some c5return) with
  | .ok f => f
  | .error _ => {}

/-- C5 counterexample: FromIRS succeeds on `c5return` but leaves WorkerPay
in append order [current year, prior year]; the current-year entry's
end-date is unparseable (zero-time key 10101) while the prior-year entry
(derived by minusOneYear) is keyed 2022-12-31, so the unparseable entry
sorts FIRST, not last, and the series is not reverse-chronological. -/
theorem c5_counterexample :
    FromIRS (some c5return) = .ok c5facts ∧
    c5facts.workerPay.map getLatestDate = [zeroTimeKey, 20221231] ∧
    ¬ List.Sorted nfBefore c5facts.workerPay := by
  refine ⟨rfl, by decide, by decide⟩

/-- C5 witness: the FromIRS-postcondition and key-precedence branches of
the amended theorem applied to concrete inputs. -/
theorem c5_witness :
    (List.Sorted nfBefore c5facts.netIncomeLoss ∧ List.Sorted nfBefore c5facts.buybacks ∧
      List.Sorted nfBefore c5facts.cash) ∧
    getLatestDate ({ context := none } : ixbrl.NonFraction) = zeroTimeKey :=
  ⟨c5_time_series_ordering.2.2.1 (some c5return) c5facts rfl,
   c5_time_series_ordering.2.2.2.1 { context := none } rfl⟩

/-- One scanning pass of the regular expression `\$[\d,]+(?:\.\d{2})?`
(regexp.FindAllString): at a currency symbol, take the greedy nonempty run
of digits/commas, then the optional dot-plus-two-digits group, emit the
token and resume after it; otherwise move one character forward. The fuel
argument (always instantiated with the string length, which bounds the
number of scanning steps) only makes the recursion structural. -/
def scanDollarsF : ℕ → Str → List Str
  | 0, _ => []
  | _ + 1, [] => []
  | fuel + 1, c :: rest =>
    if c = '$' then
      let run := rest.takeWhile (fun x => isDigitChar x || x = ',')
      if run.isEmpty then scanDollarsF fuel rest
      else
        let after := rest.drop run.length
        let dec : Str :=
          match after with
          | '.' :: d1 :: d2 :: _ => if isDigitChar d1 && isDigitChar d2 then ['.', d1, d2] else []
          | _ => []
        (c :: run ++ dec) :: scanDollarsF fuel (after.drop dec.length)
    else scanDollarsF fuel rest

/-- All currency tokens of the window text. -/
def scanDollars (s : Str) : List Str := scanDollarsF s.length s

/-- strings.TrimPrefix(match, "$") followed by removal of all commas. -/
def cleanDollar (m : Str) : Str :=
  (if strStarts m (str "$") then m.drop 1 else m).filter (fun c => c ≠ ',')

/-- The successfully parsed amounts of all scanned tokens (a token whose
cleaned text does not parse is skipped, not fatal). -/
def amountsOf (text : Str) : List ℚ :=
  (scanDollars text).filterMap (fun m => parseFloatQ (cleanDollar m))

/-- extractCEOPayRatio: fewer than two tokens, or fewer than two parsed
amounts, yield an empty payload that still carries the raw window text;
otherwise the maximum parsed amount becomes the CEO value and the minimum
the median value. -/
def extractCEOPayRatio (text : Str) : CEOPayRatio :=
  if (scanDollars text).length < 2 then { text := text }
  else
    match amountsOf text with
    | [] => { text := text }
    | [_] => { text := text }
    | a :: rest => { text := text, ceo := (a :: rest).foldl max a, median := (a :: rest).foldl min a }

/-- A left fold of max starting at `a` returns `a` or a list element. -/
theorem foldl_max_mem {α : Type} [LinearOrder α] :
    ∀ (l : List α) (a : α), l.foldl max a = a ∨ l.foldl max a ∈ l := by
  intro l
  induction l with
  | nil => intro a; left; rfl
  | cons b t ih =>
    intro a
    rcases ih (max a b) with h | h
    · rcases max_choice a b with hm | hm
      · left; rw [List.foldl_cons, h, hm]
      · right
        rw [List.foldl_cons, h, hm]
        exact List.mem_cons_self b t
    · right
      rw [List.foldl_cons]
      exact List.mem_cons_of_mem b h

/-- Every list element and the start value are at most the max fold. -/
theorem le_foldl_max {α : Type} [LinearOrder α] :
    ∀ (l : List α) (a x : α), (x = a ∨ x ∈ l) → x ≤ l.foldl max a := by
  intro l
  induction l with
  | nil => intro a x h; rcases h with rfl | h; exacts [le_refl x, absurd h (List.not_mem_nil x)]
  | cons b t ih =>
    intro a x h
    rw [List.foldl_cons]
    rcases h with rfl | h
    · exact le_trans (le_max_left x b) (ih (max x b) (max x b) (Or.inl rfl))
    · rcases List.mem_cons.mp h with rfl | hx
      · exact le_trans (le_max_right a x) (ih (max a x) (max a x) (Or.inl rfl))
      · exact ih (max a b) x (Or.inr hx)

/-- A left fold of min starting at `a` returns `a` or a list element. -/
theorem foldl_min_mem {α : Type} [LinearOrder α] :
    ∀ (l : List α) (a : α), l.foldl min a = a ∨ l.foldl min a ∈ l := by
  intro l
  induction l with
  | nil => intro a; left; rfl
  | cons b t ih =>
    intro a
    rcases ih (min a b) with h | h
    · rcases min_choice a b with hm | hm
      · left; rw [List.foldl_cons, h, hm]
      · right
        rw [List.foldl_cons, h, hm]
        exact List.mem_cons_self b t
    · right
      rw [List.foldl_cons]
      exact List.mem_cons_of_mem b h

/-- The min fold is at most every list element and the start value. -/
theorem foldl_min_le {α : Type} [LinearOrder α] :
    ∀ (l : List α) (a x : α), (x = a ∨ x ∈ l) → l.foldl min a ≤ x := by
  intro l
  induction l with
  | nil => intro a x h; rcases h with rfl | h; exacts [le_refl x, absurd h (List.not_mem_nil x)]
  | cons b t ih =>
    intro a x h
    rw [List.foldl_cons]
    rcases h with rfl | h
    · exact le_trans (ih (min x b) (min x b) (Or.inl rfl)) (min_le_left x b)
    · rcases List.mem_cons.mp h with rfl | hx
      · exact le_trans (ih (min a x) (min a x) (Or.inl rfl)) (min_le_right a x)
      · exact ih (min a b) x (Or.inr hx)

/-- CEO-pay-ratio window in which the median figure appears first. -/
def c6text1 : Str :=
  str "the annual total compensation for the median employee was $193,744 and for our CEO was $79,106,183."

/-- CEO-pay-ratio window in which the CEO figure appears first. -/
def c6text2 : Str :=
  str "our CEO earned $79,106,183 while the median employee earned $193,744."

example : scanDollars c6text1 = [str "$193,744", str "$79,106,183"] := by decide

example : scanDollars (str "pay $1,2.50 now") = [str "$1,2.50"] := by decide

/-- C6: with at least two parsed currency amounts, the maximum becomes the
CEO value and the minimum the median value (by magnitude, not token
order), and the raw window text is always retained; with fewer than two
amounts the payload is empty but still carries the text; the two fixture
windows extract CEO=79106183 and median=193744 in either token order. -/
theorem c6_extract_ceo_pay_ratio :
    (∀ t : Str, 2 ≤ (amountsOf t).length →
      (extractCEOPayRatio t).text = t ∧
      (extractCEOPayRatio t).ceo ∈ amountsOf t ∧
      (∀ a ∈ amountsOf t, a ≤ (extractCEOPayRatio t).ceo) ∧
      (extractCEOPayRatio t).median ∈ amountsOf t ∧
      (∀ a ∈ amountsOf t, (extractCEOPayRatio t).median ≤ a)) ∧
    (∀ t : Str, (amountsOf t).length < 2 → extractCEOPayRatio t = { text := t }) ∧
    extractCEOPayRatio c6text1 = { text := c6text1, ceo := 79106183, median := 193744 } ∧
    extractCEOPayRatio c6text2 = { text := c6text2, ceo := 79106183, median := 193744 } := by
  have e1 : natOfDigits (str "193744") = 193744 := by decide
  have e2 : natOfDigits (str "79106183") = 79106183 := by decide
  have hv1 : (1 : ℚ) * (natOfDigits (str "193744") : ℚ) = 193744 := by rw [e1]; norm_num
  have hv2 : (1 : ℚ) * (natOfDigits (str "79106183") : ℚ) = 79106183 := by rw [e2]; norm_num
  refine ⟨?_, ?_, ?_, ?_⟩
  · intro t h
    have hlen : (amountsOf t).length ≤ (scanDollars t).length :=
      List.length_filterMap_le (fun m => parseFloatQ (cleanDollar m)) (scanDollars t)
    have hm : ¬ (scanDollars t).length < 2 := by omega
    cases hA : amountsOf t with
    | nil => rw [hA] at h; simp at h
    | cons a l2 =>
      cases l2 with
      | nil => rw [hA] at h; simp at h
      | cons b rest =>
        have hx : extractCEOPayRatio t =
            { text := t, ceo := (a :: b :: rest).foldl max a,
              median := (a :: b :: rest).foldl min a } := by
          unfold extractCEOPayRatio
          rw [if_neg hm, hA]
        rw [hx]
        refine ⟨rfl, ?_, ?_, ?_, ?_⟩
        · rcases foldl_max_mem (a :: b :: rest) a with h1 | h1
          · rw [h1]; exact List.mem_cons_self a _
          · exact h1
        · intro x hxm
          exact le_foldl_max (a :: b :: rest) a x (Or.inr hxm)
        · rcases foldl_min_mem (a :: b :: rest) a with h1 | h1
          · rw [h1]; exact List.mem_cons_self a _
          · exact h1
        · intro x hxm
          exact foldl_min_le (a :: b :: rest) a x (Or.inr hxm)
  · intro t h
    unfold extractCEOPayRatio
    by_cases hm : (scanDollars t).length < 2
    · rw [if_pos hm]
    · rw [if_neg hm]
      cases hA : amountsOf t with
      | nil => rfl
      | cons a l2 =>
        cases l2 with
        | nil => rfl
        | cons b rest => rw [hA] at h; simp at h; omega
  · have hA1 : amountsOf c6text1 =
        [(1 : ℚ) * (natOfDigits (str "193744") : ℚ),
         (1 : ℚ) * (natOfDigits (str "79106183") : ℚ)] := rfl
    have hA : amountsOf c6text1 = [(193744 : ℚ), 79106183] := by rw [hA1, hv1, hv2]
    have hsc : ¬ (scanDollars c6text1).length < 2 := by decide
    have hx : extractCEOPayRatio c6text1 =
        CEOPayRatio.mk c6text1 (List.foldl max 193744 [(193744 : ℚ), 79106183])
          (List.foldl min 193744 [(193744 : ℚ), 79106183]) := by
      unfold extractCEOPayRatio
      rw [if_neg hsc, hA]
    rw [hx]
    simp only [List.foldl_cons, List.foldl_nil, CEOPayRatio.mk.injEq]
    refine ⟨trivial, ?_, ?_⟩ <;> norm_num [max_def, min_def]
  · have hA1 : amountsOf c6text2 =
        [(1 : ℚ) * (natOfDigits (str "79106183") : ℚ),
         (1 : ℚ) * (natOfDigits (str "193744") : ℚ)] := rfl
    have hA : amountsOf c6text2 = [(79106183 : ℚ), 193744] := by rw [hA1, hv1, hv2]
    have hsc : ¬ (scanDollars c6text2).length < 2 := by decide
    have hx : extractCEOPayRatio c6text2 =
        CEOPayRatio.mk c6text2 (List.foldl max 79106183 [(79106183 : ℚ), 193744])
          (List.foldl min 79106183 [(79106183 : ℚ), 193744]) := by
      unfold extractCEOPayRatio
      rw [if_neg hsc, hA]
    rw [hx]
    simp only [List.foldl_cons, List.foldl_nil, CEOPayRatio.mk.injEq]
    refine ⟨trivial, ?_, ?_⟩ <;> norm_num [max_def, min_def]

/-- C6 witness: the at-least-two-amounts branch applied to the first
fixture window. -/
theorem c6_witness :
    2 ≤ (amountsOf c6text1).length ∧ (extractCEOPayRatio c6text1).text = c6text1 :=
  ⟨by decide, (c6_extract_ceo_pay_ratio.1 c6text1 (by decide)).1⟩

end facts

namespace ixbrl

mutual

/-- SearchHTML: visit the tree; at each leaf (a node with no element
children) flatten its text, and record the leaf together with the
predicate's non-empty result; non-leaf nodes are recursed into, leaves are
not. The Go predicate returns "" for no match; it is modelled as Option. -/
def searchHTML (pred : Str → Option Str) : HNode → List (HNode × Str)
  | .text s =>
    match (if (HTMLText [.text s]).isEmpty then none else pred (HTMLText [.text s])) with
    | some m => [(.text s, m)]
    | none => []
  | .elem tag cs =>
    if (HNode.elem tag cs).isLeafNode then
      match (if (HTMLText [.elem tag cs]).isEmpty then none
             else pred (HTMLText [.elem tag cs])) with
      | some m => [(.elem tag cs, m)]
      | none => []
    else searchHTMLForest pred cs
  | .document cs =>
    if (HNode.document cs).isLeafNode then
      match (if (HTMLText [.document cs]).isEmpty then none
             else pred (HTMLText [.document cs])) with
      | some m => [(.document cs, m)]
      | none => []
    else searchHTMLForest pred cs

/-- The child loop of searchHTML. -/
def searchHTMLForest (pred : Str → Option Str) : HForest → List (HNode × Str)
  | .nil => []
  | .cons c f => searchHTML pred c ++ searchHTMLForest pred f

end

end ixbrl

namespace facts

/-- onlyNumber: keep only the digits and parse them; an empty digit string
or an Atoi failure yields 0. -/
def onlyNumber (s : Str) : ℤ :=
  let numericStr := s.filter isDigitChar
  if numericStr = [] then 0
  else
    match parseAtoi numericStr with
    | none => 0
    | some v => v

/-- Does `[^.,%]*employees` match a prefix of the text: is there a gap free
of '.', ',' and '%' followed by the literal "employees"? (The gap's greedy
length only moves the match end, which the caller never uses.) -/
def restMatchesEmployees : Str → Bool
  | [] => strStarts [] (str "employees")
  | l@(c :: t) =>
    strStarts l (str "employees") ||
      (!(c = '.' || c = ',' || c = '%') && restMatchesEmployees t)

/-- Greedy backtracking over the capture group `[\d]{1}[\d,]{1,}` at a
fixed start: `c` is the leading digit, `run` the maximal digit/comma run
after it; try the longest group length first (Go's regexp prefers the
longest greedy repetition), requiring the rest of the pattern to match. -/
def tryGroupLens (c : Char) (run : Str) (t : Str) : ℕ → Option Str
  | 0 => none
  | k + 1 =>
    if restMatchesEmployees (t.drop (k + 1)) then some (c :: run.take (k + 1))
    else tryGroupLens c run t k

/-- The capture group of the first (leftmost) match of
`([\d]{1}[\d,]{1,})[^.,%]*employees` in the text (FindAllStringSubmatch's
match[0][1]): scan start positions left to right; at a digit, backtrack the
group greedily. -/
def firstEmployeesGroup : Str → Option Str
  | [] => none
  | c :: t =>
    if isDigitChar c then
      let run := t.takeWhile (fun x => isDigitChar x || x = ',')
      match tryGroupLens c run t run.length with
      | some g => some g
      | none => firstEmployeesGroup t
    else firstEmployeesGroup t

/-- The SearchHTML predicate of the employee-count extraction: only leaf
text containing "december" (case-insensitively) is considered; the first
regex match's group is taken; a group of calendar-year shape (prefix "20"
and exactly 4 characters) is rejected. -/
def employeesPredicate (t : Str) : Option Str :=
  if strHas (toLowerStr t) (str "december") then
    match firstEmployeesGroup t with
    | some g => if !(strStarts g (str "20")) || g.length ≠ 4 then some g else none
    | none => none
  else none

/-- The assignment loop over the collected matches: EmployeesCount is set
from a match only while it is still 0. -/
def employeesCountFold (ms : List Str) : ℤ :=
  ms.foldl (fun acc m => if acc = 0 then onlyNumber m else acc) 0

/-- The employee-count pipeline of FromEdgar for one document tree. -/
def employeesFromDoc (doc : ixbrl.HNode) : ℤ :=
  employeesCountFold ((ixbrl.searchHTML employeesPredicate doc).map (fun m => m.2))

/-- A nonzero accumulator is never overwritten by the assignment loop. -/
theorem foldl_first_nonzero (ms : List Str) :
    ∀ acc : ℤ, acc ≠ 0 →
      ms.foldl (fun acc m => if acc = 0 then onlyNumber m else acc) acc = acc := by
  induction ms with
  | nil => intro acc h; rfl
  | cons m t ih =>
    intro acc h
    rw [List.foldl_cons, if_neg h]
    exact ih acc h

/-- Document with a non-December leaf (ignored) and a December leaf whose
match is the 221,000 figure. -/
def c8doc : ixbrl.HNode := .document (.ofList [
  .elem (str "body") (.ofList [
    .elem (str "div") (.ofList [.text (str "we had 9,999 employees in the period")]),
    .elem (str "div") (.ofList
      [.text (str "we had approximately 221,000 employees as of December 31, 2023")])])])

/-- C8 (amended): only leaf text containing "december" (case-insensitive)
is considered; the capture group is a grouped-digit run preceding
"employees"; 4-character groups starting with "20" are rejected; non-digit
characters are discarded before parsing; and the first qualifying match
whose digit-stripped parse is NONZERO wins (a qualifying match parsing to
zero is passed over — see the counterexample); the fixture sentence yields
221000 and a standalone year-shaped "2024 employees" is rejected. -/
theorem c8_employee_count_extraction :
    (∀ t : Str, ¬ strHas (toLowerStr t) (str "december") = true → employeesPredicate t = none) ∧
    employeesPredicate (str "we had approximately 221,000 employees as of December 31, 2023") =
      some (str "221,000") ∧
    onlyNumber (str "221,000") = 221000 ∧
    employeesPredicate (str "in december 2024 employees") = none ∧
    (∀ s : Str, onlyNumber s = onlyNumber (s.filter isDigitChar)) ∧
    (∀ (m : Str) (ms : List Str), onlyNumber m ≠ 0 →
      employeesCountFold (m :: ms) = onlyNumber m) ∧
    (∀ (m : Str) (ms : List Str), onlyNumber m = 0 →
      employeesCountFold (m :: ms) = employeesCountFold ms) ∧
    employeesFromDoc c8doc = 221000 := by
  refine ⟨?_, by decide, by decide, by decide, ?_, ?_, ?_, by decide⟩
  · intro t h
    simp [employeesPredicate, h]
  · intro s
    simp [onlyNumber, List.filter_filter]
  · intro m ms h
    unfold employeesCountFold
    rw [List.foldl_cons, if_pos rfl]
    exact foldl_first_nonzero ms (onlyNumber m) h
  · intro m ms h
    unfold employeesCountFold
    rw [List.foldl_cons, if_pos rfl, h]

/-- C8 counterexample: "0,0" is a qualifying match (december present,
digit-comma group, not year-shaped) but parses to 0, so it does NOT win:
with a later qualifying match "300" the extracted count is 300, refuting
the claim that the first qualifying match wins. -/
theorem c8_counterexample :
    employeesPredicate (str "in december 0,0 employees left") = some (str "0,0") ∧
    employeesPredicate (str "as of december we had 300 employees") = some (str "300") ∧
    onlyNumber (str "0,0") = 0 ∧
    employeesCountFold [str "0,0", str "300"] = 300 := by
  decide

/-- C8 witness: the nonzero-first-match branch applied to concrete
matches. -/
theorem c8_witness :
    onlyNumber (str "221,000") ≠ 0 ∧
    employeesCountFold [str "221,000", str "300"] = onlyNumber (str "221,000") :=
  ⟨by decide, c8_employee_count_extraction.2.2.2.2.2.1 (str "221,000") [str "300"] (by decide)⟩

end facts

namespace ixbrl

/-- The leafAccumulator's node list. Go deduplicates by node pointer
identity; two structurally equal nodes at different tree positions are
distinct pointers, so each accumulated node carries its tree position (the
path of child indices from the walk), and identity is path equality. -/
abbrev NodeAcc := List (List ℕ × HNode)

/-- The accumulated nodes in collection order. -/
def accNodes (acc : NodeAcc) : List HNode := acc.map (fun p => p.2)

/-- leafAccumulator.String(): HTMLText over the accumulated nodes. -/
def accString (acc : NodeAcc) : Str := HTMLText (accNodes acc)

/-- leafAccumulator.Len(): length of the flattened text. -/
def accLen (acc : NodeAcc) : ℕ := (accString acc).length

/-- leafAccumulator.Add(): append unless already present (by identity). -/
def accAdd (acc : NodeAcc) (p : List ℕ × HNode) : NodeAcc :=
  if acc.any (fun q => q.1 = p.1) then acc else acc ++ [p]

mutual

/-- findTextNodesAtDepth: stop when the accumulated text has reached the
budget; add a leaf whose depth is at least the target depth; otherwise
scan the children (the final HNode argument is the node being visited). -/
def findTextNodesAtDepth : List ℕ → ℕ → ℤ → NodeAcc → ℕ → HNode → NodeAcc
  | path, depth, tD, acc, mL, .text s =>
    if accLen acc ≥ mL then acc
    else if decide (tD ≤ (depth : ℤ)) && (HNode.text s).isLeafNode then
      accAdd acc (path, .text s)
    else acc
  | path, depth, tD, acc, mL, .elem tag cs =>
    if accLen acc ≥ mL then acc
    else if decide (tD ≤ (depth : ℤ)) && (HNode.elem tag cs).isLeafNode then
      accAdd acc (path, .elem tag cs)
    else findChildren path depth tD acc mL 0 cs
  | path, depth, tD, acc, mL, .document cs =>
    if accLen acc ≥ mL then acc
    else if decide (tD ≤ (depth : ℤ)) && (HNode.document cs).isLeafNode then
      accAdd acc (path, .document cs)
    else findChildren path depth tD acc mL 0 cs

/-- The child loop of findTextNodesAtDepth: the guard re-checks the budget
before each child. -/
def findChildren : List ℕ → ℕ → ℤ → NodeAcc → ℕ → ℕ → HForest → NodeAcc
  | _, _, _, acc, _, _, .nil => acc
  | path, depth, tD, acc, mL, i, .cons c f =>
    if accLen acc ≥ mL then acc
    else findChildren path depth tD (findTextNodesAtDepth (path ++ [i]) (depth + 1) tD acc mL c) mL (i + 1) f

end

/-- FindNextLeafNodes' outer loop: process one subtree per iteration from
the current sibling list, and when it is exhausted climb one level and
continue with that ancestor's following siblings; stop when the
accumulated text reaches the budget or nothing remains. The fuel argument
(instantiated below with an upper bound on the number of loop iterations)
only makes the recursion structural. -/
def walkNextF (n : ℕ) (tD : ℤ) : ℕ → NodeAcc → ℕ → List HNode → ℕ → List (List HNode) → NodeAcc
  | 0, acc, _, _, _, _ => acc
  | fuel + 1, acc, gi, current, curDepth, parents =>
    if accLen acc ≥ n then acc
    else
      match current, parents with
      | [], [] => acc
      | [], up :: rest => walkNextF n tD fuel acc (gi + 1) up (curDepth - 1) rest
      | t :: ts, ps =>
        walkNextF n tD fuel (findTextNodesAtDepth [gi, ts.length] curDepth tD acc n t) gi ts curDepth ps

/-- An upper bound on the outer loop's iteration count. -/
def walkFuel (current : List HNode) (parents : List (List HNode)) : ℕ :=
  current.length + (parents.map (fun u => u.length + 1)).sum + 1

/-- FindNextLeafNodes, stated on the anchor's position: `anchorRights` are
the anchor's following siblings, `ups` lists each ancestor's following
siblings (innermost first), so the anchor's depth is `ups.length` and the
target depth is that minus 2; a non-positive budget returns "". -/
def FindNextLeafNodes (anchorRights : List HNode) (ups : List (List HNode)) (n : ℕ) : Str :=
  if n = 0 then []
  else accString (walkNextF n ((ups.length : ℤ) - 2)
    (walkFuel anchorRights ups) [] 0 anchorRights ups.length ups)

mutual

/-- Specification-side enumeration, following the spec's words: the leaf
nodes of a subtree whose own depth is at least the target depth, in
depth-first order, each with its position. -/
def leafCandidates : List ℕ → ℕ → ℤ → HNode → NodeAcc
  | path, depth, tD, .text s =>
    if decide (tD ≤ (depth : ℤ)) && (HNode.text s).isLeafNode then [(path, .text s)]
    else []
  | path, depth, tD, .elem tag cs =>
    if decide (tD ≤ (depth : ℤ)) && (HNode.elem tag cs).isLeafNode then [(path, .elem tag cs)]
    else leafCandidatesF path depth tD 0 cs
  | path, depth, tD, .document cs =>
    if decide (tD ≤ (depth : ℤ)) && (HNode.document cs).isLeafNode then [(path, .document cs)]
    else leafCandidatesF path depth tD 0 cs

/-- Forest version of `leafCandidates`. -/
def leafCandidatesF : List ℕ → ℕ → ℤ → ℕ → HForest → NodeAcc
  | _, _, _, _, .nil => []
  | path, depth, tD, i, .cons c f =>
    leafCandidates (path ++ [i]) (depth + 1) tD c ++ leafCandidatesF path depth tD (i + 1) f

end

/-- Specification-side accumulation, following the spec's words: take
candidates in order, deduplicated by identity, until the flattened text of
the accumulation reaches or exceeds the budget (or no nodes remain). -/
def specAccumulate (n : ℕ) : NodeAcc → List (List ℕ × HNode) → NodeAcc
  | acc, [] => acc
  | acc, c :: cs => if accLen acc ≥ n then acc else specAccumulate n (accAdd acc c) cs

/-- Specification-side stream of one sibling group (positions mirror the
walk's: group index, then position from the right within the group). -/
def groupStream (gi : ℕ) (depth : ℕ) (tD : ℤ) : List HNode → List (List ℕ × HNode)
  | [] => []
  | t :: ts => leafCandidates [gi, ts.length] depth tD t ++ groupStream gi depth tD ts

/-- Specification-side stream of the whole forward walk: the anchor's
following siblings, then each ancestor's following siblings, one level
shallower per climb. -/
def walkStream (tD : ℤ) : ℕ → List HNode → ℕ → List (List HNode) → List (List ℕ × HNode)
  | gi, current, curDepth, [] => groupStream gi curDepth tD current
  | gi, current, curDepth, up :: rest =>
    groupStream gi curDepth tD current ++ walkStream tD (gi + 1) up (curDepth - 1) rest

/-- FindNextLeafNodes as the spec describes it: enumerate the candidate
leaves of the forward walk, accumulate them in order under the budget,
and flatten the accumulation. -/
def FindNextLeafNodesSpec (anchorRights : List HNode) (ups : List (List HNode)) (n : ℕ) : Str :=
  if n = 0 then []
  else accString (specAccumulate n []
    (walkStream ((ups.length : ℤ) - 2) 0 anchorRights ups.length ups))

/-- Once the budget is reached the accumulation adds nothing. -/
theorem specAccumulate_full (n : ℕ) (acc : NodeAcc) (h : accLen acc ≥ n) :
    ∀ cs, specAccumulate n acc cs = acc := by
  intro cs
  cases cs with
  | nil => rfl
  | cons c t => unfold specAccumulate; rw [if_pos h]

/-- Unfolding equation of the accumulation on a cons cell. -/
theorem specAccumulate_cons (n : ℕ) (acc : NodeAcc) (c : List ℕ × HNode)
    (cs : List (List ℕ × HNode)) :
    specAccumulate n acc (c :: cs) =
      if accLen acc ≥ n then acc else specAccumulate n (accAdd acc c) cs := rfl

/-- The accumulation splits over list concatenation. -/
theorem specAccumulate_append (n : ℕ) :
    ∀ (xs ys : List (List ℕ × HNode)) (acc : NodeAcc),
      specAccumulate n acc (xs ++ ys) = specAccumulate n (specAccumulate n acc xs) ys := by
  intro xs
  induction xs with
  | nil => intro ys acc; rfl
  | cons x t ih =>
    intro ys acc
    rw [List.cons_append, specAccumulate_cons, specAccumulate_cons]
    by_cases h : accLen acc ≥ n
    · rw [if_pos h, if_pos h, specAccumulate_full n acc h ys]
    · rw [if_neg h, if_neg h]
      exact ih ys (accAdd acc x)

mutual

/-- The budget-guarded depth scan equals accumulating the candidate list. -/
theorem findTextNodesAtDepth_eq_spec :
    ∀ (node : HNode) (path : List ℕ) (depth : ℕ) (tD : ℤ) (acc : NodeAcc) (mL : ℕ),
      findTextNodesAtDepth path depth tD acc mL node =
        specAccumulate mL acc (leafCandidates path depth tD node)
  | .text s => by
    intro path depth tD acc mL
    unfold findTextNodesAtDepth leafCandidates
    by_cases h : accLen acc ≥ mL
    · rw [if_pos h]
      exact (specAccumulate_full mL acc h _).symm
    · rw [if_neg h]
      by_cases hc : (decide (tD ≤ (depth : ℤ)) && (HNode.text s).isLeafNode) = true
      · rw [if_pos hc, if_pos hc]
        unfold specAccumulate
        rw [if_neg h]
        rfl
      · rw [if_neg hc, if_neg hc]
        rfl
  | .elem tag cs => by
    intro path depth tD acc mL
    unfold findTextNodesAtDepth leafCandidates
    by_cases h : accLen acc ≥ mL
    · rw [if_pos h]
      exact (specAccumulate_full mL acc h _).symm
    · rw [if_neg h]
      by_cases hc : (decide (tD ≤ (depth : ℤ)) && (HNode.elem tag cs).isLeafNode) = true
      · rw [if_pos hc, if_pos hc]
        unfold specAccumulate
        rw [if_neg h]
        rfl
      · rw [if_neg hc, if_neg hc]
        exact findChildren_eq_spec cs path depth tD acc mL 0
  | .document cs => by
    intro path depth tD acc mL
    unfold findTextNodesAtDepth leafCandidates
    by_cases h : accLen acc ≥ mL
    · rw [if_pos h]
      exact (specAccumulate_full mL acc h _).symm
    · rw [if_neg h]
      by_cases hc : (decide (tD ≤ (depth : ℤ)) && (HNode.document cs).isLeafNode) = true
      · rw [if_pos hc, if_pos hc]
        unfold specAccumulate
        rw [if_neg h]
        rfl
      · rw [if_neg hc, if_neg hc]
        exact findChildren_eq_spec cs path depth tD acc mL 0

/-- The guarded child loop equals accumulating the forest's candidates. -/
theorem findChildren_eq_spec :
    ∀ (f : HForest) (path : List ℕ) (depth : ℕ) (tD : ℤ) (acc : NodeAcc) (mL : ℕ) (i : ℕ),
      findChildren path depth tD acc mL i f =
        specAccumulate mL acc (leafCandidatesF path depth tD i f)
  | .nil => by
    intro path depth tD acc mL i
    rfl
  | .cons c f => by
    intro path depth tD acc mL i
    unfold findChildren leafCandidatesF
    rw [specAccumulate_append]
    by_cases h : accLen acc ≥ mL
    · rw [if_pos h, specAccumulate_full mL acc h, specAccumulate_full mL acc h]
    · rw [if_neg h, findTextNodesAtDepth_eq_spec c (path ++ [i]) (depth + 1) tD acc mL]
      exact findChildren_eq_spec f path depth tD
        (specAccumulate mL acc (leafCandidates (path ++ [i]) (depth + 1) tD c)) mL (i + 1)

end

/-- Peeling one subtree off the head of the walk stream. -/
theorem walkStream_cons (tD : ℤ) (gi : ℕ) (t : HNode) (ts : List HNode) (curDepth : ℕ)
    (ps : List (List HNode)) :
    walkStream tD gi (t :: ts) curDepth ps =
      leafCandidates [gi, ts.length] curDepth tD t ++ walkStream tD gi ts curDepth ps := by
  cases ps with
  | nil => rfl
  | cons up rest => simp [walkStream, groupStream, List.append_assoc]

/-- The fueled outer loop equals accumulating the whole walk stream, for
any fuel at least the loop's iteration bound. -/
theorem walkNextF_eq_spec (n : ℕ) (tD : ℤ) :
    ∀ (fuel : ℕ) (parents : List (List HNode)) (current : List HNode)
      (acc : NodeAcc) (gi curDepth : ℕ),
      current.length + (parents.map (fun u => u.length + 1)).sum ≤ fuel →
      walkNextF n tD fuel acc gi current curDepth parents =
        specAccumulate n acc (walkStream tD gi current curDepth parents) := by
  intro fuel
  induction fuel with
  | zero =>
    intro parents current acc gi curDepth hb
    have hc : current = [] := by
      cases current with
      | nil => rfl
      | cons a t => simp at hb
    have hp : parents = [] := by
      cases parents with
      | nil => rfl
      | cons u t => simp at hb
    subst hc; subst hp
    rfl
  | succ f ih =>
    intro parents current acc gi curDepth hb
    unfold walkNextF
    by_cases h : accLen acc ≥ n
    · rw [if_pos h]
      exact (specAccumulate_full n acc h _).symm
    · rw [if_neg h]
      match current, parents with
      | [], [] => rfl
      | [], up :: rest =>
        have hb2 : up.length + ((rest.map (fun u => u.length + 1)).sum) ≤ f := by
          simp at hb ⊢; omega
        show walkNextF n tD f acc (gi + 1) up (curDepth - 1) rest = _
        rw [ih rest up acc (gi + 1) (curDepth - 1) hb2]
        rfl
      | t :: ts, ps =>
        have hb2 : ts.length + ((ps.map (fun u => u.length + 1)).sum) ≤ f := by
          simp at hb ⊢; omega
        show walkNextF n tD f (findTextNodesAtDepth [gi, ts.length] curDepth tD acc n t)
            gi ts curDepth ps = _
        rw [ih ps ts _ gi curDepth hb2,
          findTextNodesAtDepth_eq_spec t [gi, ts.length] curDepth tD acc n,
          walkStream_cons, specAccumulate_append]

/-- The nested span of the repository's TestFindNextLeafNodes fixture. -/
def c10span : HNode :=
  .elem (str "span") (.ofList [.text (str "Nested "), .elem (str "br") .nil, .text (str "span")])

/-- The inner div of the fixture. -/
def c10div2 : HNode := .elem (str "div") (.ofList [
  .text (str "\n\t\t"), c10span, .text (str "\n\t\t"),
  .elem (str "a") (.ofList [.text (str "Link text")]), .text (str "\n\t")])

/-- The second paragraph of the fixture. -/
def c10p2 : HNode := .elem (str "p") (.ofList [
  .text (str "Second "), .elem (str "span") (.ofList [.text (str "paragraph")])])

/-- The trailing list of the fixture. -/
def c10ul : HNode := .elem (str "ul") (.ofList [
  .text (str "\n\t\t"), .elem (str "li") (.ofList [.text (str "Item 1")]),
  .text (str "\n\t\t"), .elem (str "li") (.ofList [.text (str "Item 2")]),
  .text (str "\n\t")])

/-- The following siblings of the fixture's anchor (the first paragraph
inside the outer div of the parsed document). -/
def c10rights : List HNode :=
  [.text (str "\n\t"), c10div2, .text (str "\n\t"), c10p2, .text (str "\n\t"), c10ul,
   .text (str "\n")]

/-- The right-sibling lists of the anchor's ancestors (outer div, body,
html, document root) — all empty, so the anchor's depth is 4. -/
def c10ups : List (List HNode) := [[], [], [], []]

/-- C10: FindNextLeafNodes is exactly the spec-side description — walk
forward from the anchor's next sibling, climbing to ancestor siblings as
subtrees are exhausted, enumerate leaf nodes of depth at least the
anchor's depth minus 2 in depth-first order, accumulate them deduplicated
by identity until the flattened length reaches the budget, and return the
flattened text of the accumulation in collection order; on the
repository's fixture with budget 30 this yields the test's expected
string, stopping once the accumulated length is at least 30. -/
theorem c10_find_next_leaf_nodes :
    (∀ (anchorRights : List HNode) (ups : List (List HNode)) (n : ℕ),
      FindNextLeafNodes anchorRights ups n = FindNextLeafNodesSpec anchorRights ups n) ∧
    FindNextLeafNodes c10rights c10ups 30 = str "Nested span\n\t\tLink text\n\t\n\tSecond" := by
  constructor
  · intro anchorRights ups n
    unfold FindNextLeafNodes FindNextLeafNodesSpec
    by_cases h : n = 0
    · rw [if_pos h, if_pos h]
    · rw [if_neg h, if_neg h,
        walkNextF_eq_spec n ((ups.length : ℤ) - 2) (walkFuel anchorRights ups) ups anchorRights
          [] 0 ups.length (by unfold walkFuel; omega)]
  · decide

end ixbrl

end LL
